import Mathlib

/-!
Verification of `hack/helm-reference-gen/main.go`: a converter that turns a
commented YAML values document into a tree of documentation nodes and renders
that tree as markdown list fragments.

The embedding models the parsed YAML node graph (`gopkg.in/yaml.v3`'s
`yaml.Node`) as the inductive `YNode`, the documentation tree (`YAMLNode` in
the Go source) as the inductive `YAMLNode`, and the Go functions
`ParseNode` / `ParseChildren` / `Gen` / `GenChildren` together with the
`YAMLNode` methods `Anchor`, `Kind`, `FormattedDefault`,
`FormattedDescription`, `LeadingIndent`.  Go panics (out-of-range slice
indexing, `panic(...)`, negative `strings.Repeat` count recovered by
`text/template`) are modelled as `Option.none`.
-/

set_option autoImplicit false
set_option linter.unusedVariables false
set_option linter.unusedTactic false
set_option linter.unreachableTactic false

/-- Node kinds of the external YAML library (`yaml.Kind` in `gopkg.in/yaml.v3`):
document, sequence, mapping, scalar and alias nodes. -/
inductive YKind where
  | document
  | sequence
  | mapping
  | scalar
  | aliasNode
  deriving DecidableEq, Repr

/-- A parsed YAML node (`yaml.Node` of `gopkg.in/yaml.v3`), restricted to the
fields the generator reads: `Kind`, `Content`, `Column`, `Value`, `Tag`,
`HeadComment`.  The constructor argument order is
kind, content, column, value, tag, headComment. -/
inductive YNode where
  | mk (kind : YKind) (content : List YNode) (column : Nat)
       (value tag headComment : String) : YNode

def YNode.kind : YNode → YKind
  | .mk k _ _ _ _ _ => k

def YNode.content : YNode → List YNode
  | .mk _ c _ _ _ _ => c

def YNode.column : YNode → Nat
  | .mk _ _ col _ _ _ => col

def YNode.value : YNode → String
  | .mk _ _ _ v _ _ => v

def YNode.tag : YNode → String
  | .mk _ _ _ _ t _ => t

def YNode.headComment : YNode → String
  | .mk _ _ _ _ _ h => h

/-! String helpers.  These model the exact Go string/regexp operations the
generator uses.  They are written as structural recursions over `List Char`
so that every concrete instance evaluates by `decide`/`rfl`. -/

/-- Whether `p` is an initial segment of `l` (byte/char-wise, models the
anchored test a `strings.HasPrefix` performs). -/
def listStartsWith : List Char → List Char → Bool
  | [], _ => true
  | _ :: _, [] => false
  | p :: ps, c :: cs => p = c && listStartsWith ps cs

/-- Whether string `s` starts with `p` (`strings.HasPrefix(s, p)`). -/
def strStartsWith (s p : String) : Bool :=
  listStartsWith p.data s.data

/-- Text after the last occurrence of `sep` in `l`, or `none` when `sep` does
not occur.  This is the per-line semantics of Go's greedy
`.*sep(.*)$` regexp capture: the greedy `.*` consumes up to the last
occurrence of `sep` on the line, and the capture is everything after it. -/
def afterLastMarker (sep : List Char) : List Char → Option (List Char)
  | [] => none
  | c :: rest =>
    match afterLastMarker sep rest with
    | some r => some r
    | none =>
      if listStartsWith sep (c :: rest) then
        some (List.drop sep.length (c :: rest))
      else
        none

/-- Split a character list on a separator character; models
`strings.Split(s, sep)` for a one-character separator
(`strings.Split("", sep) = [""]`, so the empty list yields `[[]]`). -/
def splitChar (sep : Char) : List Char → List (List Char)
  | [] => [[]]
  | c :: rest =>
    if c = sep then
      [] :: splitChar sep rest
    else
      match splitChar sep rest with
      | h :: t => (c :: h) :: t
      | [] => [[c]]

/-- Split a string into its lines; models `strings.Split(s, "\n")`. -/
def splitLines (s : String) : List String :=
  (splitChar '\n' s.data).map String.mk

/-- Text after the last occurrence of `marker` within `line`, or `none` when
the marker does not occur in the line. -/
def markerValue (marker line : String) : Option String :=
  (afterLastMarker marker.data line.data).map String.mk

/-- Model of `regexp.FindStringSubmatch` for the two override patterns
`(?m).*type: (.*)$` and `(?m).*default: (.*)$` of the source: the match is
per line (`.` does not cross a newline), the leftmost match is the first
line containing the marker, and the greedy `.*` places the capture after
the last occurrence of the marker within that line. -/
def findOverrideValue (marker desc : String) : Option String :=
  ((splitLines desc).filterMap (markerValue marker)).head?

/-- Whitespace as matched by the Go regexp class `[^\S\n]` (whitespace other
than newline, i.e. space, tab, form feed, carriage return). -/
def isCommentWS (c : Char) : Bool :=
  c = ' ' || c = '\t' || c = '\x0c' || c = '\r'

/-- Scanner for `commentPrefix.ReplaceAllString(s, "")` with
`commentPrefix = [^\S\n]*#[^\S\n]?`: repeatedly delete the leftmost
non-overlapping match (a run of non-newline whitespace, a `#`, and greedily
one optional non-newline whitespace character).  `pending` accumulates (in
reverse) a whitespace run whose fate is still unknown: it is deleted when a
`#` follows it and emitted verbatim otherwise.  `afterHash` records that a
`#` was just deleted, so that one following whitespace character is deleted
too. -/
def stripCommentAux : Bool → List Char → List Char → List Char
  | _, pending, [] => pending.reverse
  | afterHash, pending, c :: rest =>
    if afterHash && isCommentWS c then
      stripCommentAux false [] rest
    else if isCommentWS c then
      stripCommentAux false (c :: pending) rest
    else if c = '#' then
      stripCommentAux true [] rest
    else
      pending.reverse ++ c :: stripCommentAux false [] rest

/-- `commentPrefix.ReplaceAllString(s, "")` from the source: removes every
comment marker together with the whitespace run before it and at most one
whitespace character after it. -/
def stripCommentMarkers (s : String) : String :=
  String.mk (stripCommentAux false [] s.data)

/-- Go `unicode.IsSpace` restricted to ASCII (space, tab, newline, vertical
tab, form feed, carriage return), the cutset of `strings.TrimSpace`. -/
def isSpaceGo (c : Char) : Bool :=
  c = ' ' || c = '\t' || c = '\n' || c = '\x0b' || c = '\x0c' || c = '\r'

/-- Model of `strings.TrimSpace`: drop whitespace from both ends. -/
def trimSpace (s : String) : String :=
  String.mk (((s.data.dropWhile isSpaceGo).reverse.dropWhile isSpaceGo).reverse)

/-- Model of `strings.TrimSuffix(s, "\n")`: remove one trailing newline when
present. -/
def trimSuffixNL (s : String) : String :=
  if s.data.getLast? = some '\n' then String.mk s.data.dropLast else s

/-- A run of `n` spaces; models `strings.Repeat(" ", n)` for a non-negative
count. -/
def spacesStr (n : Nat) : String :=
  String.mk (List.replicate n ' ')

/-- ASCII lower-casing of a string; models `strings.ToLower` on the ASCII
keys of a values file. -/
def toLowerStr (s : String) : String :=
  String.mk (s.data.map Char.toLower)

/-- Model of `strings.Join(l, sep)`. -/
def strJoin (sep : String) : List String → String
  | [] => ""
  | [x] => x
  | x :: rest => x ++ sep ++ strJoin sep rest

/-! The documentation tree. -/

/-- A node of the documentation tree (`YAMLNode` in the Go source).  The
constructor argument order follows the struct:
`Indent`, `ParentAnchor`, `ParentWasMap`, `Key`, `Default`, `Description`,
`KindTag`, `Children`. -/
inductive YAMLNode where
  | mk (Indent : Nat) (ParentAnchor : String) (ParentWasMap : Bool)
       (Key Default Description KindTag : String)
       (Children : List YAMLNode) : YAMLNode

def YAMLNode.Indent : YAMLNode → Nat
  | .mk i _ _ _ _ _ _ _ => i

def YAMLNode.ParentAnchor : YAMLNode → String
  | .mk _ pa _ _ _ _ _ _ => pa

def YAMLNode.ParentWasMap : YAMLNode → Bool
  | .mk _ _ pwm _ _ _ _ _ => pwm

def YAMLNode.Key : YAMLNode → String
  | .mk _ _ _ k _ _ _ _ => k

def YAMLNode.Default : YAMLNode → String
  | .mk _ _ _ _ d _ _ _ => d

def YAMLNode.Description : YAMLNode → String
  | .mk _ _ _ _ _ d _ _ => d

def YAMLNode.KindTag : YAMLNode → String
  | .mk _ _ _ _ _ _ t _ => t

def YAMLNode.Children : YAMLNode → List YAMLNode
  | .mk _ _ _ _ _ _ _ c => c

/-- Anchor string built from a parent anchor and a key
(`fmt.Sprintf("%s-%s", parentAnchor, strings.ToLower(key))`). -/
def anchorOf (parentAnchor key : String) : String :=
  parentAnchor ++ "-" ++ toLowerStr key

/-- Method `Anchor` of the source. -/
def YAMLNode.Anchor (y : YAMLNode) : String :=
  anchorOf y.ParentAnchor y.Key

/-- Method `Kind` of the source: an explicit `type: ` override found in the
description wins; otherwise the YAML tag, stripped of leading `!`
characters (`strings.TrimLeft(y.KindTag, "!")`), is mapped to a label, and
any unexpected tag is reported visibly. -/
def YAMLNode.Kind (y : YAMLNode) : String :=
  match findOverrideValue "type: " y.Description with
  | some v => v
  | none =>
    let t := String.mk (y.KindTag.data.dropWhile (fun c => c = '!'))
    if t = "str" then "string"
    else if t = "int" then "integer"
    else if t = "bool" then "boolean"
    else if t = "map" then "map"
    else "unknown kind '" ++ y.KindTag ++ "'"

/-- Method `FormattedDefault` of the source: a `default: ` override in the
description wins; an `array<map>` kind shows no default; a non-empty
default of more than two lines is suppressed, otherwise it is shown
trimmed; an empty default renders as the literal `""`. -/
def YAMLNode.FormattedDefault (y : YAMLNode) : String :=
  match findOverrideValue "default: " y.Description with
  | some v => v
  | none =>
    if y.Kind = "array<map>" then ""
    else if y.Default ≠ "" then
      if (splitLines y.Default).length > 2 then "" else trimSpace y.Default
    else "\"\""

/-- Loop body of `FormattedDescription`: walks the comment-stripped lines
with their index `i`, drops `type:`/`default:` override lines, emits line 0
inline, re-indents later non-blank lines by `Indent + 1` spaces
(`Indent` spaces when `ParentWasMap`), and keeps blank lines as bare
newlines. -/
def fdAux (yIndent : Nat) (pwm : Bool) : List String → Nat → String
  | [], _ => ""
  | line :: rest, i =>
    (if strStartsWith line "type:" || strStartsWith line "default:" then ""
     else if i = 0 then line ++ "\n"
     else if line ≠ "" then
       spacesStr (if pwm then yIndent else yIndent + 1) ++ line ++ "\n"
     else "\n")
    ++ fdAux yIndent pwm rest (i + 1)

/-- Method `FormattedDescription` of the source: strip the comment markers,
process the lines with `fdAux`, and trim the final newline. -/
def YAMLNode.FormattedDescription (y : YAMLNode) : String :=
  trimSuffixNL (fdAux y.Indent y.ParentWasMap
    (splitLines (stripCommentMarkers y.Description)) 0)

/-- Method `LeadingIndent` of the source: `Indent - 1` spaces
(`Indent - 3` when `ParentWasMap`); Go's `strings.Repeat` panics on a
negative count (the panic is recovered by `text/template` and surfaces as a
render error), modelled by `none`. -/
def YAMLNode.LeadingIndent (y : YAMLNode) : Option String :=
  let indent : Int := if y.ParentWasMap then (y.Indent : Int) - 3 else (y.Indent : Int) - 1
  if indent < 0 then none else some (spacesStr indent.toNat)

/-! The tree builder (`Parse`, `ParseNode`, `ParseChildren`).  Go panics —
the out-of-range `n.Content[i+1]` read for a trailing key scalar, the
`panic("wrong length")` guard, the `n.Content[0]` read of an empty
document, and the `panic("scalars should not be parsed here")` — are
modelled as `none`. -/

/-- `allScalars` of the source: every element is a scalar node with no
content. -/
def allScalars (content : List YNode) : Bool :=
  content.all (fun n => n.kind = YKind.scalar && n.content.length = 0)

/-- Modelled from the spec: `toYaml` re-serializes an all-scalar sequence via
the external `yaml.Marshal` in inline/flow form (e.g. `[a, b, c]`) and
strips the `arr: ` key; the library call is outside this repository, so its
output is modelled as the flow-form list of the scalar values followed by
the marshaller's trailing newline. -/
def toYaml (content : List YNode) : String :=
  "[" ++ strJoin ", " (content.map YNode.value) ++ "]\n"

/-- The node built for a key scalar whose value node is a scalar. -/
def scalarPairNode (pa : String) (pwm : Bool) (child next : YNode) : YAMLNode :=
  .mk child.column pa pwm child.value next.value child.headComment next.tag []

/-- The node built for a key scalar whose value node is a mapping, once the
recursively parsed children `cs` are known. -/
def mapPairNode (pa : String) (pwm : Bool) (child next : YNode)
    (cs : List YAMLNode) : YAMLNode :=
  .mk child.column pa pwm child.value "" child.headComment next.tag cs

/-- The node built for a key scalar whose value node is an empty sequence. -/
def emptySeqPairNode (pa : String) (pwm : Bool) (child next : YNode) : YAMLNode :=
  .mk child.column pa pwm child.value "[]" child.headComment next.tag []

/-- The node built for a key scalar whose value node is an all-scalar
sequence. -/
def flowSeqPairNode (pa : String) (pwm : Bool) (child next : YNode) : YAMLNode :=
  .mk child.column pa pwm child.value (toYaml next.content) child.headComment next.tag []

/-- The node built for a key scalar whose value node is a sequence with a
non-scalar element, once the recursively parsed children `cs` are known. -/
def seqContainerNode (pa : String) (pwm : Bool) (child next : YNode)
    (cs : List YAMLNode) : YAMLNode :=
  .mk child.column pa pwm child.value "" child.headComment next.tag cs

mutual

/-- `ParseNode` of the source.  A document descends into its first content
node (and panics — `none` — when the document is empty); a mapping becomes
the synthetic root when `parentAnchor` is empty and a keyed container node
otherwise, its children parsed by `ParseChildren`; a scalar panics
(`none`); sequence and alias nodes fall through the `switch` and return the
zero `YAMLNode`. -/
def ParseNode (n : YNode) (parentAnchor : String) : Option YAMLNode :=
  match h1 : n.kind, h2 : n.content with
  | .document, [] => none
  | .document, c :: _ => ParseNode c ""
  | .mapping, _ =>
    (ParseChildren n parentAnchor false).map (fun cs =>
      if parentAnchor = "" then
        .mk 0 "" false "" "" "" "" cs
      else
        .mk n.column parentAnchor false n.value "" n.headComment n.tag cs)
  | .scalar, _ => none
  | .sequence, _ => some (.mk 0 "" false "" "" "" "" [])
  | .aliasNode, _ => some (.mk 0 "" false "" "" "" "" [])
termination_by 3 * sizeOf n + 2
decreasing_by
all_goals simp_wf
all_goals try omega
all_goals try cases n
all_goals try simp only [YNode.content] at *
all_goals try subst_vars
all_goals try simp only [YNode.mk.sizeOf_spec, List.cons.sizeOf_spec, List.nil.sizeOf_spec] at *
all_goals omega

/-- `ParseChildren` of the source.  When the content list is a single
non-scalar node, the loop's `len(n.Content) == 1` check fires on its first
iteration and the function descends into that node with
`parentWasMap = true`; a single scalar hits the out-of-range
`n.Content[i+1]` read (`none`); otherwise the pairwise loop `parseLoop`
runs (the original length is not 1, so the check never fires again). -/
def ParseChildren (n : YNode) (parentAnchor : String) (parentWasMap : Bool) :
    Option (List YAMLNode) :=
  match h : n.content with
  | [c] =>
    if c.kind = YKind.scalar then none
    else ParseChildren c parentAnchor true
  | l => parseLoop l parentAnchor parentWasMap
termination_by 3 * sizeOf n + 1
decreasing_by
all_goals simp_wf
all_goals try omega
all_goals try cases n
all_goals try simp only [YNode.content] at *
all_goals try subst_vars
all_goals try simp only [YNode.mk.sizeOf_spec, List.cons.sizeOf_spec, List.nil.sizeOf_spec] at *
all_goals omega

/-- The `for i, child := range n.Content` loop of `ParseChildren` for a
content list whose original length is not 1.  A scalar `child` consumes the
following node as its value (`skipNext`), panicking (`none`) when there is
none; the `switch` on the value's kind builds a leaf or container node (a
document or alias value matches no case and appends nothing); a non-scalar
`child` is parsed by `ParseNode`. -/
def parseLoop (l : List YNode) (parentAnchor : String) (parentWasMap : Bool) :
    Option (List YAMLNode) :=
  match l with
  | [] => some []
  | child :: rest =>
    if child.kind = YKind.scalar then
      match rest with
      | [] => none
      | next :: rest2 =>
        match next.kind with
        | .scalar =>
          (parseLoop rest2 parentAnchor parentWasMap).map
            (fun more => scalarPairNode parentAnchor parentWasMap child next :: more)
        | .mapping =>
          (ParseChildren next (anchorOf parentAnchor child.value) false).bind (fun cs =>
            (parseLoop rest2 parentAnchor parentWasMap).map
              (fun more => mapPairNode parentAnchor parentWasMap child next cs :: more))
        | .sequence =>
          if next.content.length = 0 then
            (parseLoop rest2 parentAnchor parentWasMap).map
              (fun more => emptySeqPairNode parentAnchor parentWasMap child next :: more)
          else if allScalars next.content then
            (parseLoop rest2 parentAnchor parentWasMap).map
              (fun more => flowSeqPairNode parentAnchor parentWasMap child next :: more)
          else
            (ParseChildren next (anchorOf parentAnchor child.value) false).bind (fun cs =>
              (parseLoop rest2 parentAnchor parentWasMap).map
                (fun more => seqContainerNode parentAnchor parentWasMap child next cs :: more))
        | _ => parseLoop rest2 parentAnchor parentWasMap
    else
      (ParseNode child parentAnchor).bind (fun pn =>
        (parseLoop rest parentAnchor parentWasMap).map (fun more => pn :: more))
termination_by 3 * sizeOf l
decreasing_by
all_goals simp_wf
all_goals try simp only [List.cons.sizeOf_spec, List.nil.sizeOf_spec] at *
all_goals omega

end

/-- `Parse` of the source, taken at the already-unmarshalled node
(`yaml.Unmarshal` is the external YAML parser; a malformed input is
rejected by it before this function runs, and an empty input leaves the
node zero-valued — see `zeroInputNode`). -/
def Parse (doc : YNode) : Option YAMLNode :=
  ParseNode doc ""

/-! The renderer (`Gen`, `GenChildren` and the fixed template `tmpl`). -/

/-- One execution of the fixed template
`{{ .LeadingIndent }}- ¤{{ .Key }}¤ ((#v{{ .Anchor }})){{ if ne .Kind "map" }} (¤{{ .Kind }}{{ if .FormattedDefault }}: {{ .FormattedDefault }}{{ end }}¤){{ end }}{{ if .FormattedDescription}} - {{ .FormattedDescription }}{{ end }}`
(with `¤` standing for the backquote substituted for `$`): template `if` on
a string is truth of non-emptiness; a panic inside `LeadingIndent`
(negative repeat count) is recovered by `text/template` and surfaces as an
execution error, modelled by `none`. -/
def renderFragment (y : YAMLNode) : Option String :=
  (y.LeadingIndent).map (fun li =>
    li ++ "- `" ++ y.Key ++ "` ((#v" ++ y.Anchor ++ "))"
    ++ (if y.Kind ≠ "map" then
          " (`" ++ y.Kind
          ++ (if y.FormattedDefault ≠ "" then ": " ++ y.FormattedDefault else "")
          ++ "`)"
        else "")
    ++ (if y.FormattedDescription ≠ "" then " - " ++ y.FormattedDescription else ""))

/-- The loop of `GenChildren` of the source: for each child, execute the
template, then recursively render the child's own children, concatenating
fragment lists in that order; the first template error aborts. -/
def genFragments : List YAMLNode → Option (List String)
  | [] => some []
  | child@(YAMLNode.mk _ _ _ _ _ _ _ cs) :: rest =>
    (renderFragment child).bind (fun frag =>
      (genFragments cs).bind (fun sub =>
        (genFragments rest).map (fun more => frag :: (sub ++ more))))

/-- `GenChildren` of the source (the fixed template argument is baked in). -/
def GenChildren (node : YAMLNode) : Option (List String) :=
  genFragments node.Children

/-- `Gen` of the source, taken at the already-unmarshalled document node:
parse the tree, render the fragments of the root's children, and join them
with a blank line. -/
def Gen (doc : YNode) : Option String :=
  (Parse doc).bind (fun root => (GenChildren root).map (strJoin "\n\n"))

/-- Pre-order flattening of a documentation forest: each node followed by
its own descendants, before its later siblings. -/
def preorderNodes : List YAMLNode → List YAMLNode
  | [] => []
  | c@(YAMLNode.mk _ _ _ _ _ _ _ cs) :: rest =>
    c :: (preorderNodes cs ++ preorderNodes rest)

/-! Specification-side definitions.  These restate parts of the spec's
description of the renderer declaratively, to be compared with the
loop-shaped source embeddings above (refinement claims C3 and C5). -/

/-- Declarative per-line rendering of a description line carrying its index:
an override line (`type:`/`default:` at line start) is dropped, line 0 is
kept inline, a blank line is kept bare, and any other line is re-indented
by `u` spaces. -/
def specLineRender (u : Nat) (p : Nat × String) : Option String :=
  if strStartsWith p.2 "type:" || strStartsWith p.2 "default:" then none
  else if p.1 = 0 then some p.2
  else if p.2 = "" then some ""
  else some (spacesStr u ++ p.2)

/-- Concatenate lines, terminating each with a newline. -/
def joinMapNL : List String → String
  | [] => ""
  | l :: rest => l ++ "\n" ++ joinMapNL rest

/-- The lines of a node's rendered description: the comment-stripped lines,
indexed, passed through `specLineRender` with the indentation unit
`Indent` when `ParentWasMap` and `Indent + 1` otherwise. -/
def keptLines (y : YAMLNode) : List String :=
  (splitLines (stripCommentMarkers y.Description)).enum.filterMap
    (specLineRender (if y.ParentWasMap then y.Indent else y.Indent + 1))

/-- Declarative form of the description rendering: the kept lines, each
terminated by a newline, with the trailing newline of the whole trimmed. -/
def specFormattedDescription (y : YAMLNode) : String :=
  trimSuffixNL (joinMapNL (keptLines y))

/-- The pairwise scan of `ParseChildren`'s loop ends at a key scalar with no
following value node: a scalar child consumes its value node and the scan
continues two positions later, a non-scalar child consumes one position,
and a trailing lone scalar is exactly the condition under which the loop
reads `n.Content[i+1]` out of range. -/
def scanEndsUnpaired : List YNode → Bool
  | [] => false
  | [k] => k.kind = YKind.scalar
  | k :: rest@(_ :: rest2) =>
    if k.kind = YKind.scalar then scanEndsUnpaired rest2 else scanEndsUnpaired rest

/-- Effectful map over `Option` (explicit structural form used to state the
pre-order characterization of the renderer). -/
def optionMapM {α β : Type} (f : α → Option β) : List α → Option (List β)
  | [] => some []
  | x :: l => (f x).bind (fun b => (optionMapM f l).map (fun r => b :: r))

/-! Concrete data used by counterexamples and witnesses. -/

/-- Scalar key node `a` at column 1. -/
def keyA : YNode := .mk .scalar [] 1 "a" "!!str" ""

/-- Scalar value node `1` (integer tag). -/
def valOne : YNode := .mk .scalar [] 4 "1" "!!int" ""

/-- Scalar key node `b` at column 1. -/
def keyB : YNode := .mk .scalar [] 1 "b" "!!str" ""

/-- Scalar value node `2` (integer tag). -/
def valTwo : YNode := .mk .scalar [] 4 "2" "!!int" ""

/-- String-valued scalar node `1` at column 4. -/
def valOneStr : YNode := .mk .scalar [] 4 "1" "!!str" ""

/-- A mapping with the single entry `a: 1`. -/
def oneEntryMap : YNode := .mk .mapping [keyA, valOneStr] 1 "" "!!map" ""

/-- A document whose top-level value is a mapping with exactly one entry. -/
def oneEntryDoc : YNode := .mk .document [oneEntryMap] 1 "" "" ""

/-- A sequence whose single element is the one-entry mapping (the shape the
unwrap of `ParseChildren` actually fires on). -/
def oneMapSeq : YNode := .mk .sequence [oneEntryMap] 3 "" "!!seq" ""

/-- Scalar key node `b` at column 3 (a key inside a sequence element). -/
def keyBIn : YNode := .mk .scalar [] 3 "b" "!!str" ""

/-- Scalar key node `c` at column 3 (a key inside a sequence element). -/
def keyCIn : YNode := .mk .scalar [] 3 "c" "!!str" ""

/-- Mapping element `{b: 1}` of a sequence. -/
def mapElemB : YNode := .mk .mapping [keyBIn, valOne] 3 "" "!!map" ""

/-- Mapping element `{c: 2}` of a sequence. -/
def mapElemC : YNode := .mk .mapping [keyCIn, valTwo] 3 "" "!!map" ""

/-- A sequence of two mapping elements (an "array of maps"). -/
def twoMapSeq : YNode := .mk .sequence [mapElemB, mapElemC] 3 "" "!!seq" ""

/-- A top-level mapping `a: [{b: 1}, {c: 2}]`. -/
def seqOfMapsTop : YNode := .mk .mapping [keyA, twoMapSeq] 1 "" "!!map" ""

/-- An empty mapping node (`{}`). -/
def emptyMapNode : YNode := .mk .mapping [] 4 "" "!!map" ""

/-- A top-level mapping `a: {}` whose value is an empty mapping. -/
def emptyMapTop : YNode := .mk .mapping [keyA, emptyMapNode] 1 "" "!!map" ""

/-- A mapping whose content list holds a key scalar with no following value
node (the malformed shape of claim C9). -/
def unpairedMap : YNode := .mk .mapping [keyA] 1 "" "!!map" ""

/-- Modelled from the spec: the node `Parse` receives for an empty input.
`yaml.Unmarshal` of an empty buffer skips decoding and leaves the
`yaml.Node` zero-valued — kind 0, which is none of the five node kinds,
with no content, value or tag.  Every inspection of a kind in the source
(`ParseNode`'s `switch`, the `child.Kind == yaml.ScalarNode` tests, the
`switch next.Kind`, `allScalars`) only distinguishes document, mapping,
sequence and scalar and sends every other kind — 0 and alias alike — down
the same default/fall-through path, so the zero-valued node is represented
here by a contentless node of a fall-through kind. -/
def zeroInputNode : YNode := .mk .aliasNode [] 0 "" "" ""

/-- A bare scalar (a document whose top-level value is a scalar). -/
def bareScalar : YNode := .mk .scalar [] 1 "x" "!!str" ""

/-- A document whose top-level value is a scalar. -/
def scalarDoc : YNode := .mk .document [bareScalar] 1 "" "" ""

/-- A document with two scalar entries `a: 1`, `b: 2`. -/
def twoEntryDoc : YNode := .mk .document [.mk .mapping [keyA, valOne, keyB, valTwo] 1 "" "!!map" ""] 1 "" "" ""

/-- The root node `Parse` produces for `twoEntryDoc`. -/
def twoEntryRoot : YAMLNode :=
  .mk 0 "" false "" "" "" "" [.mk 1 "" false "a" "1" "" "!!int" [], .mk 1 "" false "b" "2" "" "!!int" []]

/-- Node with two override lines of the exact `type: <value>` shape. -/
def yTwoTypeLines : YAMLNode := .mk 0 "" false "k" "" "type: a\ntype: b" "!!str" []

/-- Node whose only comment line contains, but does not start with, a
`type: ` marker. -/
def yEmbeddedType : YAMLNode := .mk 0 "" false "k" "x" "# x type: integer" "!!str" []

/-- Node with a plain two-line comment, built by a plain mapping parent
(`ParentWasMap = false`) at indent 2. -/
def yPlainTwoLines : YAMLNode := .mk 2 "" false "k" "" "# a\n# b" "!!str" []

/-- Node with a comment holding a text line and exact `type:`/`default:`
override lines, on a scalar with structural kind string and default x. -/
def yOverrideBlock : YAMLNode :=
  .mk 0 "" false "k" "x" "# x\n# type: integer\n# default: 5" "!!str" []

/-- Node with a four-line default and no override. -/
def yFourLineDefault : YAMLNode := .mk 0 "" false "k" "l1\nl2\nl3\nl4" "" "!!str" []

/-- Node with a two-line default (with surrounding whitespace) and no
override. -/
def yTwoLineDefault : YAMLNode := .mk 0 "" false "k" " v\n" "" "!!str" []

/-! Helper lemmas shared by the claim theorems. -/

theorem findOverrideValue_of_first (marker desc : String) (pre : List String)
    (line : String) (post : List String) (v : String)
    (h : splitLines desc = pre ++ line :: post)
    (hpre : ∀ l ∈ pre, markerValue marker l = none)
    (hline : markerValue marker line = some v) :
    findOverrideValue marker desc = some v := by
  unfold findOverrideValue
  rw [h, List.filterMap_append, List.filterMap_eq_nil_iff.mpr hpre]
  simp [List.filterMap_cons, hline]

theorem snd_mem_of_mem_enumFrom {α : Type} (x : Nat × α) :
    ∀ (l : List α) (n : Nat), x ∈ l.enumFrom n → x.2 ∈ l
  | [], n, h => by simp [List.enumFrom] at h
  | a :: l, n, h => by
    simp only [List.enumFrom, List.mem_cons] at h
    cases h with
    | inl h => simp [h]
    | inr h => exact List.mem_cons_of_mem _ (snd_mem_of_mem_enumFrom x l (n + 1) h)

theorem fdAux_eq (ind : Nat) (pwm : Bool) :
    ∀ (lines : List String) (i : Nat),
      fdAux ind pwm lines i =
        joinMapNL ((lines.enumFrom i).filterMap
          (specLineRender (if pwm then ind else ind + 1)))
  | [], i => by simp [fdAux, List.enumFrom, joinMapNL]
  | line :: rest, i => by
    have ih := fdAux_eq ind pwm rest (i + 1)
    simp only [fdAux, ih, List.enumFrom, List.filterMap_cons]
    by_cases h1 : (strStartsWith line "type:" || strStartsWith line "default:") = true
    · simp [specLineRender, h1, String.empty_append]
    · by_cases h2 : i = 0
      · simp [specLineRender, h1, h2, joinMapNL, String.append_assoc]
      · by_cases h3 : line = ""
        · simp [specLineRender, h1, h2, h3, joinMapNL, String.empty_append,
            strStartsWith, listStartsWith]
        · simp [specLineRender, h1, h2, h3, joinMapNL, String.append_assoc]

theorem formattedDescription_eq_spec (y : YAMLNode) :
    y.FormattedDescription = specFormattedDescription y := by
  unfold YAMLNode.FormattedDescription specFormattedDescription keptLines
  rw [fdAux_eq]
  rfl

/-- Claim C1, counterexample.  The claim says an override line is a line
exactly matching `type: <value>` and that the last such line in the block
wins.  On `yTwoTypeLines` (description `type: a` then `type: b`, both
exactly of that shape) the rendered kind is `a` — the first matching line —
not `b` as the claim predicts; and on `yEmbeddedType` the line
`# x type: integer`, which does not exactly match `type: <value>`, is
nevertheless recognized, overriding the structural kind `string`. -/
theorem C1_counterexample :
    yTwoTypeLines.Kind = "a" ∧ ("a" : String) ≠ "b" ∧
    yEmbeddedType.Kind = "integer" ∧ ("integer" : String) ≠ "string" := by
  decide

/-- Claim C1, amended: within a node's comment block, an override line is a
line containing `type: ` (resp. `default: `); the first such line in the
block determines the rendered kind (resp. the rendered default), the value
being the text after the last occurrence of the marker within that line
(this in-line last-occurrence semantics is `markerValue`). -/
theorem C1_override_recognition (y : YAMLNode) :
    (∀ (pre : List String) (line : String) (post : List String) (v : String),
      splitLines y.Description = pre ++ line :: post →
      (∀ l ∈ pre, markerValue "type: " l = none) →
      markerValue "type: " line = some v →
      y.Kind = v) ∧
    (∀ (pre : List String) (line : String) (post : List String) (v : String),
      splitLines y.Description = pre ++ line :: post →
      (∀ l ∈ pre, markerValue "default: " l = none) →
      markerValue "default: " line = some v →
      y.FormattedDefault = v) := by
  constructor
  · intro pre line post v h hpre hline
    unfold YAMLNode.Kind
    rw [findOverrideValue_of_first "type: " y.Description pre line post v h hpre hline]
  · intro pre line post v h hpre hline
    unfold YAMLNode.FormattedDefault
    rw [findOverrideValue_of_first "default: " y.Description pre line post v h hpre hline]

/-- Claim C1, witness: the amended theorem applied at `yTwoTypeLines`
(first `type: ` line `type: a`) and at `yOverrideBlock` (first
`default: ` line `# default: 5`). -/
theorem C1_witness : yTwoTypeLines.Kind = "a" ∧ yOverrideBlock.FormattedDefault = "5" :=
  ⟨(C1_override_recognition yTwoTypeLines).1 [] "type: a" ["type: b"] "a"
      (by decide) (by decide) (by decide),
   (C1_override_recognition yOverrideBlock).2 ["# x", "# type: integer"] "# default: 5" [] "5"
      (by decide) (by decide) (by decide)⟩

/-- Claim C3, counterexample.  `yPlainTwoLines` has indent 2 and
`ParentWasMap = false` (its parent is a plain mapping, not the unwrapped
sequence-of-maps wrapper); the claim predicts its second description line
is re-indented by exactly `indentLevel = 2` spaces, but the code re-indents
it by `indentLevel + 1 = 3` spaces. -/
theorem C3_counterexample :
    yPlainTwoLines.FormattedDescription = "a\n   b" ∧
    ("a\n   b" : String) ≠ "a\n  b" := by
  decide

/-- Claim C3, amended: every description line after the first that is
non-blank (and is not a dropped `type:`/`default:` override line) is
re-indented by `indentLevel + 1` spaces, except that it is re-indented by
exactly `indentLevel` spaces when `parentWasSequenceOfMaps`
(`ParentWasMap`) is set, i.e. when the node's immediate parent was the
unwrapped sequence-of-maps wrapper rather than a plain mapping; blank
lines are emitted as bare newlines with no added indentation, and the
trailing newline of the whole description is trimmed
(`specFormattedDescription` states exactly this pipeline). -/
theorem C3_description_indentation (y : YAMLNode) :
    y.FormattedDescription = specFormattedDescription y :=
  formattedDescription_eq_spec y

/-- Claim C5, counterexample.  The line `# x type: integer` of
`yEmbeddedType` supplies the kind override (the rendered kind is
`integer`, not the structural `string`), yet the rendered description is
`x type: integer` — the override-supplying line is not stripped, because
stripping tests `type:` only at the start of the comment-stripped line. -/
theorem C5_counterexample :
    yEmbeddedType.Kind = "integer" ∧
    yEmbeddedType.FormattedDescription = "x type: integer" := by
  decide

/-- Claim C5, amended: every line that, after comment-marker stripping,
begins with `type:` or `default:` is absent from the rendered description
(the rendered description is assembled from `keptLines`, none of which
derives from such a line); the override values — taken from the first line
containing `type: ` / `default: ` — replace the structurally inferred kind
and default; in particular the block of `yOverrideBlock` (`# x`,
`# type: integer`, `# default: 5` on a scalar node with structural kind
string and default x) renders kind `integer`, default `5`, and description
`x`, with neither override line appearing. -/
theorem C5_override_stripping :
    (∀ y : YAMLNode,
      y.FormattedDescription = trimSuffixNL (joinMapNL (keptLines y)) ∧
      (∀ l ∈ keptLines y,
        ∃ orig ∈ splitLines (stripCommentMarkers y.Description),
          strStartsWith orig "type:" = false ∧ strStartsWith orig "default:" = false ∧
          (l = orig ∨
            l = spacesStr (if y.ParentWasMap then y.Indent else y.Indent + 1) ++ orig))) ∧
    (yOverrideBlock.Kind = "integer" ∧ yOverrideBlock.FormattedDefault = "5" ∧
      yOverrideBlock.FormattedDescription = "x") := by
  constructor
  · intro y
    constructor
    · exact formattedDescription_eq_spec y
    · intro l hl
      unfold keptLines at hl
      obtain ⟨p, hp, hrender⟩ := List.mem_filterMap.mp hl
      have horig : p.2 ∈ splitLines (stripCommentMarkers y.Description) :=
        snd_mem_of_mem_enumFrom p _ 0 hp
      refine ⟨p.2, horig, ?_⟩
      unfold specLineRender at hrender
      split at hrender
      next h1 => simp at hrender
      next h1 =>
        have ht : strStartsWith p.2 "type:" = false := by
          cases h : strStartsWith p.2 "type:" <;> simp_all
        have hd : strStartsWith p.2 "default:" = false := by
          cases h : strStartsWith p.2 "default:" <;> simp_all
        refine ⟨ht, hd, ?_⟩
        split at hrender
        · left; exact (Option.some.inj hrender).symm
        · split at hrender
          next hblank =>
            left; rw [hblank]; exact (Option.some.inj hrender).symm
          next hblank =>
            right; exact (Option.some.inj hrender).symm
  · decide

/-- Claim C5, witness: the amended theorem applied at `yOverrideBlock`. -/
theorem C5_witness :
    yOverrideBlock.FormattedDescription = trimSuffixNL (joinMapNL (keptLines yOverrideBlock)) :=
  (C5_override_stripping.1 yOverrideBlock).1

/-- Claim C7 (confirmed): for a node with no `default:` override and kind
other than `array<map>`, a non-empty default of more than two lines
renders with no default shown, and a default of exactly two lines renders
with the default shown, trimmed of surrounding whitespace. -/
theorem C7_default_suppression (y : YAMLNode)
    (hov : findOverrideValue "default: " y.Description = none)
    (hk : y.Kind ≠ "array<map>") (hne : y.Default ≠ "") :
    ((splitLines y.Default).length > 2 → y.FormattedDefault = "") ∧
    ((splitLines y.Default).length = 2 → y.FormattedDefault = trimSpace y.Default) := by
  unfold YAMLNode.FormattedDefault
  rw [hov]
  constructor
  · intro h3
    simp [hk, hne, h3]
  · intro h2
    simp [hk, hne, h2]

/-- Claim C7, witness: the four-line default of `yFourLineDefault` is
suppressed and the two-line default of `yTwoLineDefault` is shown
trimmed. -/
theorem C7_witness :
    yFourLineDefault.FormattedDefault = "" ∧
    yTwoLineDefault.FormattedDefault = trimSpace yTwoLineDefault.Default :=
  ⟨(C7_default_suppression yFourLineDefault (by decide) (by decide) (by decide)).1 (by decide),
   (C7_default_suppression yTwoLineDefault (by decide) (by decide) (by decide)).2 (by decide)⟩

/-- Claim C2, counterexample.  `oneEntryDoc` is a document whose top-level
value is a mapping with exactly one entry (`a: 1`); the claim predicts the
builder descends directly into that single child instead of emitting a
node for it, marking everything below with `parentWasSequenceOfMaps`.
Instead the builder emits an ordinary node for the entry `a` (content list
`[key, value]` has length 2, so the `len(n.Content) == 1` unwrap never
fires for a one-entry mapping) and marks nothing: the root's children are
`[a]` with `ParentWasMap = [false]`. -/
theorem C2_counterexample :
    (ParseNode oneEntryDoc "").map (fun r =>
      (r.Children.map YAMLNode.Key, r.Children.map YAMLNode.ParentWasMap))
      = some (["a"], [false]) := by
  simp [ParseNode, ParseChildren, parseLoop, oneEntryDoc, oneEntryMap, keyA, valOneStr,
    scalarPairNode, YNode.kind, YNode.content, YNode.column, YNode.value, YNode.tag,
    YNode.headComment, YAMLNode.Key, YAMLNode.ParentWasMap, YAMLNode.Children]

/-- Claim C2, amended: the unwrap applies not to a one-entry top-level
mapping but to any node whose parsed content list is a single non-scalar
element — as arises for a sequence containing exactly one mapping:
`ParseChildren` descends directly into that element with
`parentWasMap = true`, so the nodes built at the unwrapped level (the
pairwise key/value children) carry `ParentWasMap = true`; and the check
recurses, so a nested single-element wrapper is unwrapped again rather
than exactly once. -/
theorem C2_virtual_unwrap (n c : YNode) (pa : String) (pwm : Bool)
    (h1 : n.content = [c]) (h2 : c.kind ≠ YKind.scalar) :
    (ParseChildren n pa pwm = ParseChildren c pa true) ∧
    (∀ d : YNode, c.content = [d] → d.kind ≠ YKind.scalar →
      ParseChildren n pa pwm = ParseChildren d pa true) ∧
    (∀ (k v : YNode) (rest : List YNode) (ns : List YAMLNode),
      c.content = k :: v :: rest → k.kind = YKind.scalar →
      v.kind ≠ YKind.document → v.kind ≠ YKind.aliasNode →
      ParseChildren n pa pwm = some ns →
      ∃ (node : YAMLNode) (tail : List YAMLNode),
        ns = node :: tail ∧ node.ParentWasMap = true) := by
  have base : ParseChildren n pa pwm = ParseChildren c pa true := by
    rw [ParseChildren.eq_def, h1]
    show (if c.kind = YKind.scalar then none else ParseChildren c pa true)
        = ParseChildren c pa true
    simp [h2]
  refine ⟨base, ?_, ?_⟩
  · intro d hd hdk
    rw [base, ParseChildren.eq_def, hd]
    show (if d.kind = YKind.scalar then none else ParseChildren d pa true)
        = ParseChildren d pa true
    simp [hdk]
  · intro k v rest ns hcc hkk hv1 hv2 hsome
    rw [base, ParseChildren.eq_def, hcc] at hsome
    have hsome' : parseLoop (k :: v :: rest) pa true = some ns := hsome
    rw [parseLoop.eq_def] at hsome'
    cases hvk : v.kind with
    | document => exact absurd hvk hv1
    | aliasNode => exact absurd hvk hv2
    | scalar =>
      simp [hkk, hvk, Option.map_eq_some'] at hsome'
      obtain ⟨more, hmore, hns⟩ := hsome'
      exact ⟨scalarPairNode pa true k v, more, hns.symm, rfl⟩
    | mapping =>
      simp [hkk, hvk, Option.map_eq_some', Option.bind_eq_some] at hsome'
      obtain ⟨cs, hcs, more, hmore, hns⟩ := hsome'
      exact ⟨mapPairNode pa true k v cs, more, hns.symm, rfl⟩
    | sequence =>
      by_cases hlen : v.content.length = 0
      · simp [hkk, hvk, hlen, Option.map_eq_some'] at hsome'
        obtain ⟨more, hmore, hns⟩ := hsome'
        exact ⟨emptySeqPairNode pa true k v, more, hns.symm, rfl⟩
      · by_cases hall : allScalars v.content = true
        · simp [hkk, hvk, hlen, hall, Option.map_eq_some'] at hsome'
          obtain ⟨more, hmore, hns⟩ := hsome'
          exact ⟨flowSeqPairNode pa true k v, more, hns.symm, rfl⟩
        · simp [hkk, hvk, hlen, hall, Option.map_eq_some', Option.bind_eq_some] at hsome'
          obtain ⟨cs, hcs, more, hmore, hns⟩ := hsome'
          exact ⟨seqContainerNode pa true k v cs, more, hns.symm, rfl⟩

/-- Claim C2, witness: the amended theorem applied to `oneMapSeq`, a
sequence whose single element is the one-entry mapping `a: 1`: the unwrap
fires and the node built for the entry carries `ParentWasMap = true`. -/
theorem C2_witness :
    (ParseChildren oneMapSeq "p" false = ParseChildren oneEntryMap "p" true) ∧
    (∃ (node : YAMLNode) (tail : List YAMLNode),
      [YAMLNode.mk 1 "p" true "a" "1" "" "!!str" []] = node :: tail ∧
      node.ParentWasMap = true) :=
  ⟨(C2_virtual_unwrap oneMapSeq oneEntryMap "p" false rfl (by decide)).1,
   (C2_virtual_unwrap oneMapSeq oneEntryMap "p" false rfl (by decide)).2.2
     keyA valOneStr [] [YAMLNode.mk 1 "p" true "a" "1" "" "!!str" []]
     rfl (by decide) (by decide) (by decide)
     (by simp [ParseChildren, parseLoop, oneMapSeq, oneEntryMap, keyA, valOneStr,
       scalarPairNode, YNode.kind, YNode.content, YNode.column, YNode.value,
       YNode.tag, YNode.headComment])⟩

/-- Claim C4, counterexample.  In `seqOfMapsTop` the key `a` holds a
sequence of two mapping elements; the builder does produce a container
node and recurse, but the children's rendered kinds are `map` (from their
`!!map` tags), not `array<map>` as the claim states — `array<map>` never
arises structurally, only from an explicit `type:` override. -/
theorem C4_counterexample :
    (ParseChildren seqOfMapsTop "" false).map (fun ns =>
      ns.map (fun n => (n.Kind, n.Children.map YAMLNode.Kind)))
      = some [("unknown kind '!!seq'", ["map", "map"])] ∧
    ("map" : String) ≠ "array<map>" := by
  constructor
  · have hp : ParseChildren seqOfMapsTop "" false =
        some [YAMLNode.mk 1 "" false "a" "" "" "!!seq"
          [YAMLNode.mk 3 "-a" false "" "" "" "!!map"
            [YAMLNode.mk 3 "-a" false "b" "1" "" "!!int" []],
           YAMLNode.mk 3 "-a" false "" "" "" "!!map"
            [YAMLNode.mk 3 "-a" false "c" "2" "" "!!int" []]]] := by
      simp [ParseChildren, parseLoop, ParseNode, seqOfMapsTop, twoMapSeq, mapElemB, mapElemC,
        keyA, keyBIn, keyCIn, valOne, valTwo, seqContainerNode, mapPairNode, scalarPairNode,
        allScalars, anchorOf, toLowerStr, YNode.kind, YNode.content, YNode.column, YNode.value,
        YNode.tag, YNode.headComment]
    rw [hp]
    decide
  · decide

/-- Claim C4, amended: for every key whose value is a sequence containing
at least one non-scalar element, the builder produces a container node and
recurses into the sequence's content via `ParseChildren`; the kinds of the
nodes built below are derived from their own tags (or `type:` overrides) —
in particular a mapping element with tag `!!map` and no override renders
kind `map`, not `array<map>`; `array<map>` arises only from an explicit
`type: array<map>` override line. -/
theorem C4_array_of_maps (k next : YNode) (rest : List YNode) (pa : String) (pwm : Bool)
    (hk : k.kind = YKind.scalar) (hs : next.kind = YKind.sequence)
    (hne : next.content.length ≠ 0) (hna : allScalars next.content = false) :
    (parseLoop (k :: next :: rest) pa pwm =
      (ParseChildren next (anchorOf pa k.value) false).bind (fun cs =>
        (parseLoop rest pa pwm).map
          (fun more => seqContainerNode pa pwm k next cs :: more))) ∧
    (∀ (m : YNode) (pa2 : String) (pn : YAMLNode),
      m.kind = YKind.mapping → pa2 ≠ "" → m.tag = "!!map" →
      findOverrideValue "type: " m.headComment = none →
      ParseNode m pa2 = some pn → pn.Kind = "map") := by
  constructor
  · rw [parseLoop.eq_def]
    simp [hk, hs, hne, hna]
  · intro m pa2 pn hm hpa2 htag hov hparse
    rw [ParseNode.eq_def] at hparse
    split at hparse <;> try (exfalso; simp_all; done)
    next =>
      simp only [Option.map_eq_some'] at hparse
      obtain ⟨cs, hcs, hpn⟩ := hparse
      rw [if_neg hpa2] at hpn
      subst hpn
      unfold YAMLNode.Kind
      simp only [YAMLNode.Description, YAMLNode.KindTag]
      rw [hov, htag]
      decide

/-- Claim C4, witness: the amended theorem applied to the key `a` with
value `twoMapSeq` (two mapping elements), and to the element `mapElemB`
parsed as a child node, whose kind renders as `map`. -/
theorem C4_witness :
    (parseLoop [keyA, twoMapSeq] "" false =
      (ParseChildren twoMapSeq (anchorOf "" keyA.value) false).bind (fun cs =>
        (parseLoop [] "" false).map
          (fun more => seqContainerNode "" false keyA twoMapSeq cs :: more))) ∧
    YAMLNode.Kind (YAMLNode.mk 3 "-a" false "" "" "" "!!map"
      [YAMLNode.mk 3 "-a" false "b" "1" "" "!!int" []]) = "map" :=
  ⟨(C4_array_of_maps keyA twoMapSeq [] "" false (by decide) (by decide)
      (by decide) (by decide)).1,
   (C4_array_of_maps keyA twoMapSeq [] "" false (by decide) (by decide)
      (by decide) (by decide)).2
     mapElemB "-a"
     (YAMLNode.mk 3 "-a" false "" "" "" "!!map"
       [YAMLNode.mk 3 "-a" false "b" "1" "" "!!int" []])
     (by decide) (by decide) (by decide) (by decide)
     (by simp [ParseNode, ParseChildren, parseLoop, mapElemB, keyBIn, valOne, scalarPairNode,
       YNode.kind, YNode.content, YNode.column, YNode.value, YNode.tag, YNode.headComment])⟩

theorem parseLoop_pair_head (k v : YNode) (rest : List YNode) (pa : String) (pwm : Bool)
    (ns : List YAMLNode) (hk : k.kind = YKind.scalar)
    (hv1 : v.kind ≠ YKind.document) (hv2 : v.kind ≠ YKind.aliasNode)
    (hsome : parseLoop (k :: v :: rest) pa pwm = some ns) :
    ∃ (node : YAMLNode) (more : List YAMLNode),
      ns = node :: more ∧ node.ParentWasMap = pwm ∧
      ((v.kind = YKind.scalar ∨
        (v.kind = YKind.sequence ∧ (v.content = [] ∨ allScalars v.content = true))) →
        node.Children = []) ∧
      ((v.kind = YKind.mapping ∨
        (v.kind = YKind.sequence ∧ v.content ≠ [] ∧ allScalars v.content = false)) →
        ParseChildren v (anchorOf pa k.value) false = some node.Children) := by
  rw [parseLoop.eq_def] at hsome
  cases hvk : v.kind with
  | document => exact absurd hvk hv1
  | aliasNode => exact absurd hvk hv2
  | scalar =>
    simp [hk, hvk, Option.map_eq_some'] at hsome
    obtain ⟨more, hmore, hns⟩ := hsome
    refine ⟨scalarPairNode pa pwm k v, more, hns.symm, rfl, fun _ => rfl, ?_⟩
    intro hcon
    rcases hcon with hcon | ⟨hcon, _⟩ <;> simp [hvk] at hcon
  | mapping =>
    simp [hk, hvk, Option.bind_eq_some, Option.map_eq_some'] at hsome
    obtain ⟨cs, hcs, more, hmore, hns⟩ := hsome
    refine ⟨mapPairNode pa pwm k v cs, more, hns.symm, rfl, ?_, ?_⟩
    · intro hcon
      rcases hcon with hcon | ⟨hcon, _⟩ <;> simp [hvk] at hcon
    · intro _
      simpa [mapPairNode, YAMLNode.Children] using hcs
  | sequence =>
    by_cases hlen : v.content.length = 0
    · simp [hk, hvk, hlen, Option.map_eq_some'] at hsome
      obtain ⟨more, hmore, hns⟩ := hsome
      refine ⟨emptySeqPairNode pa pwm k v, more, hns.symm, rfl, fun _ => rfl, ?_⟩
      intro hcon
      rcases hcon with hcon | ⟨_, hne, _⟩
      · simp [hvk] at hcon
      · exact absurd (List.length_eq_zero.mp hlen) hne
    · by_cases hall : allScalars v.content = true
      · simp [hk, hvk, hlen, hall, Option.map_eq_some'] at hsome
        obtain ⟨more, hmore, hns⟩ := hsome
        refine ⟨flowSeqPairNode pa pwm k v, more, hns.symm, rfl, fun _ => rfl, ?_⟩
        intro hcon
        rcases hcon with hcon | ⟨_, _, hfalse⟩
        · simp [hvk] at hcon
        · rw [hall] at hfalse; cases hfalse
      · simp [hk, hvk, hlen, hall, Option.bind_eq_some, Option.map_eq_some'] at hsome
        obtain ⟨cs, hcs, more, hmore, hns⟩ := hsome
        refine ⟨seqContainerNode pa pwm k v cs, more, hns.symm, rfl, ?_, ?_⟩
        · intro hcon
          rcases hcon with hcon | ⟨_, hemp⟩
          · simp [hvk] at hcon
          · rcases hemp with he | ha
            · exact absurd (by rw [he]; rfl) hlen
            · exact absurd ha hall
        · intro _
          simpa [seqContainerNode, YAMLNode.Children] using hcs

/-- Claim C6, counterexample.  In `emptyMapTop` the key `a` holds an empty
mapping (`a: {}`); its underlying YAML value is a mapping, yet the built
node's children sequence is empty, refuting the claimed equivalence
"children non-empty iff the value was a mapping or a not-all-scalar
sequence". -/
theorem C6_counterexample :
    (ParseChildren emptyMapTop "" false).map (fun ns =>
      ns.map (fun n => n.Children.length)) = some [0] ∧
    emptyMapNode.kind = YKind.mapping := by
  constructor
  · simp [ParseChildren, parseLoop, emptyMapTop, emptyMapNode, keyA, mapPairNode, anchorOf,
      toLowerStr, YNode.kind, YNode.content, YNode.column, YNode.value, YNode.tag,
      YNode.headComment, YAMLNode.Children]
  · rfl

/-- Claim C6, amended: for the node built for a key/value pair, the
children sequence is non-empty iff the underlying value was a mapping, or
a sequence whose elements were not all scalars, whose recursive parse
yields at least one entry; in particular a mapping value with no entries
yields an empty children sequence, while a mapping value whose content
starts with a well-formed key/value pair yields a non-empty one. -/
theorem C6_children_invariant (k v : YNode) (rest : List YNode) (pa : String) (pwm : Bool)
    (ns : List YAMLNode) (hk : k.kind = YKind.scalar)
    (hv1 : v.kind ≠ YKind.document) (hv2 : v.kind ≠ YKind.aliasNode)
    (hsome : parseLoop (k :: v :: rest) pa pwm = some ns) :
    ∃ (node : YAMLNode) (tail : List YAMLNode),
      ns = node :: tail ∧
      (node.Children ≠ [] ↔
        (∃ cs, cs ≠ [] ∧ ParseChildren v (anchorOf pa k.value) false = some cs ∧
          (v.kind = YKind.mapping ∨
           (v.kind = YKind.sequence ∧ v.content ≠ [] ∧ allScalars v.content = false)))) ∧
      (v.kind = YKind.mapping → v.content = [] → node.Children = []) ∧
      (v.kind = YKind.mapping →
        ∀ (k2 v2 : YNode) (rest2 : List YNode), v.content = k2 :: v2 :: rest2 →
          k2.kind = YKind.scalar → v2.kind ≠ YKind.document → v2.kind ≠ YKind.aliasNode →
          node.Children ≠ []) := by
  obtain ⟨node, more, hns, hpwm, hleaf, hcont⟩ :=
    parseLoop_pair_head k v rest pa pwm ns hk hv1 hv2 hsome
  refine ⟨node, more, hns, ?_, ?_, ?_⟩
  · constructor
    · intro hne
      cases hvk : v.kind with
      | document => exact absurd hvk hv1
      | aliasNode => exact absurd hvk hv2
      | scalar => exact absurd (hleaf (Or.inl hvk)) hne
      | mapping => exact ⟨node.Children, hne, hcont (Or.inl hvk), Or.inl rfl⟩
      | sequence =>
        by_cases hlen : v.content = []
        · exact absurd (hleaf (Or.inr ⟨hvk, Or.inl hlen⟩)) hne
        · by_cases hall : allScalars v.content = true
          · exact absurd (hleaf (Or.inr ⟨hvk, Or.inr hall⟩)) hne
          · have hfalse : allScalars v.content = false := by
              cases h : allScalars v.content <;> simp_all
            exact ⟨node.Children, hne, hcont (Or.inr ⟨hvk, hlen, hfalse⟩),
              Or.inr ⟨rfl, hlen, hfalse⟩⟩
    · rintro ⟨cs, hcsne, hcseq, hdisj⟩
      have heq := hcont hdisj
      rw [heq] at hcseq
      rw [Option.some.inj hcseq]
      exact hcsne
  · intro hm hvc
    have heq := hcont (Or.inl hm)
    have hempty : ParseChildren v (anchorOf pa k.value) false = some [] := by
      rw [ParseChildren.eq_def, hvc]
      show parseLoop [] (anchorOf pa k.value) false = some []
      simp [parseLoop]
    rw [hempty] at heq
    exact (Option.some.inj heq).symm
  · intro hm k2 v2 rest2 hvc hk2 hv21 hv22
    have heq := hcont (Or.inl hm)
    rw [ParseChildren.eq_def, hvc] at heq
    have heq' : parseLoop (k2 :: v2 :: rest2) (anchorOf pa k.value) false
        = some node.Children := heq
    obtain ⟨node2, more2, hns2, -, -, -⟩ :=
      parseLoop_pair_head k2 v2 rest2 _ false node.Children hk2 hv21 hv22 heq'
    rw [hns2]
    simp

/-- Claim C6, witness: the amended theorem applied to the pair
`a: {}` (`keyA`, `emptyMapNode`) — the children equivalence and the
empty-mapping clause hold at this concrete input. -/
theorem C6_witness :
    ∃ (node : YAMLNode) (tail : List YAMLNode),
      [mapPairNode "" false keyA emptyMapNode []] = node :: tail ∧
      (node.Children ≠ [] ↔
        (∃ cs, cs ≠ [] ∧ ParseChildren emptyMapNode (anchorOf "" keyA.value) false = some cs ∧
          (emptyMapNode.kind = YKind.mapping ∨
           (emptyMapNode.kind = YKind.sequence ∧ emptyMapNode.content ≠ [] ∧
            allScalars emptyMapNode.content = false)))) ∧
      (emptyMapNode.kind = YKind.mapping → emptyMapNode.content = [] → node.Children = []) ∧
      (emptyMapNode.kind = YKind.mapping →
        ∀ (k2 v2 : YNode) (rest2 : List YNode), emptyMapNode.content = k2 :: v2 :: rest2 →
          k2.kind = YKind.scalar → v2.kind ≠ YKind.document → v2.kind ≠ YKind.aliasNode →
          node.Children ≠ []) :=
  C6_children_invariant keyA emptyMapNode [] "" false
    [mapPairNode "" false keyA emptyMapNode []] (by decide) (by decide) (by decide)
    (by simp [parseLoop, ParseChildren, keyA, emptyMapNode, mapPairNode, anchorOf, toLowerStr,
      YNode.kind, YNode.content, YNode.column, YNode.value, YNode.tag, YNode.headComment])

theorem parseLoop_none_of_scan :
    ∀ (l : List YNode) (pa : String) (pwm : Bool),
      scanEndsUnpaired l = true → parseLoop l pa pwm = none
  | [], pa, pwm, h => by simp [scanEndsUnpaired] at h
  | [k], pa, pwm, h => by
    have hk : k.kind = YKind.scalar := by simpa [scanEndsUnpaired] using h
    rw [parseLoop.eq_def]
    simp [hk]
  | k :: next :: rest2, pa, pwm, h => by
    by_cases hk : k.kind = YKind.scalar
    · have hs : scanEndsUnpaired rest2 = true := by
        simpa [scanEndsUnpaired, hk] using h
      have ih := parseLoop_none_of_scan rest2 pa pwm hs
      rw [parseLoop.eq_def]
      cases hnext : next.kind <;>
        simp [hk, hnext, ih] <;>
        cases hpc : ParseChildren next (anchorOf pa k.value) false <;>
        simp [hpc]
    · have hs : scanEndsUnpaired (next :: rest2) = true := by
        simpa [scanEndsUnpaired, hk] using h
      have ih := parseLoop_none_of_scan (next :: rest2) pa pwm hs
      rw [parseLoop.eq_def]
      simp [hk, ih]
      try (cases hpn : ParseNode k pa <;> simp)
termination_by l => l.length
decreasing_by all_goals simp_arith

/-- Claim C9 (confirmed): for every container whose content holds a key
scalar node with no adjacent value node following it (the pairwise scan of
the loop ends at a lone scalar, `scanEndsUnpaired`), tree building aborts
— the loop's read of `n.Content[i+1]` is out of range, a Go panic,
modelled by `none` — rather than producing a node for that key or guessing
a value. -/
theorem C9_missing_value_abort (n : YNode) (pa : String) (pwm : Bool)
    (h : scanEndsUnpaired n.content = true) :
    ParseChildren n pa pwm = none := by
  rw [ParseChildren.eq_def]
  rcases hc : n.content with _ | ⟨c, _ | ⟨d, l⟩⟩
  · rw [hc] at h
    simp [scanEndsUnpaired] at h
  · rw [hc] at h
    have hck : c.kind = YKind.scalar := by simpa [scanEndsUnpaired] using h
    show (if c.kind = YKind.scalar then none else ParseChildren c pa true)
        = (none : Option (List YAMLNode))
    simp [hck]
  · rw [hc] at h
    show parseLoop (c :: d :: l) pa pwm = none
    exact parseLoop_none_of_scan _ pa pwm h

/-- Claim C9, witness: the theorem applied to `unpairedMap`, whose content
is a single key scalar with no value node after it. -/
theorem C9_witness : ParseChildren unpairedMap "" false = none :=
  C9_missing_value_abort unpairedMap "" false
    (by simp [scanEndsUnpaired, unpairedMap, keyA, YNode.content, YNode.kind])

theorem optionMapM_append {α β : Type} (f : α → Option β) :
    ∀ (a b : List α),
      optionMapM f (a ++ b) =
        (optionMapM f a).bind (fun x => (optionMapM f b).map (fun y => x ++ y))
  | [], b => by cases h : optionMapM f b <;> simp [optionMapM, h]
  | x :: a, b => by
    have ih := optionMapM_append f a b
    cases hx : f x <;> cases ha : optionMapM f a <;> cases hb : optionMapM f b <;>
      simp [optionMapM, hx, ih, ha, hb]

theorem genFragments_eq_preorder :
    ∀ l : List YAMLNode, genFragments l = optionMapM renderFragment (preorderNodes l)
  | [] => by simp [genFragments, preorderNodes, optionMapM]
  | (YAMLNode.mk i pa pwm key d desc t cs) :: rest => by
    have ih1 := genFragments_eq_preorder cs
    have ih2 := genFragments_eq_preorder rest
    cases hf : renderFragment (YAMLNode.mk i pa pwm key d desc t cs) <;>
      cases h1 : optionMapM renderFragment (preorderNodes cs) <;>
      cases h2 : optionMapM renderFragment (preorderNodes rest) <;>
      simp [genFragments, preorderNodes, optionMapM, optionMapM_append,
        hf, ih1, ih2, h1, h2]

theorem preorderNodes_append :
    ∀ (a b : List YAMLNode),
      preorderNodes (a ++ b) = preorderNodes a ++ preorderNodes b
  | [], b => by simp [preorderNodes]
  | (YAMLNode.mk i pa pwm key d desc t cs) :: a, b => by
    have ih := preorderNodes_append a b
    simp [preorderNodes, ih, List.append_assoc]

/-- Claim C8 (confirmed): for every built tree, the renderer produces
exactly one fragment per node reachable from `root.Children` in pre-order
(`GenChildren root` maps `renderFragment` over `preorderNodes
root.Children`, so the synthetic root itself never contributes a
fragment), `Gen` joins the fragments with a blank line (`strJoin "\n\n"`),
and for sibling nodes `a` before `b`, the pre-order places `a`'s fragment
and all of `a`'s descendants before `b`'s fragment and `b`'s
descendants. -/
theorem C8_render_order (doc : YNode) (root : YAMLNode) (h : Parse doc = some root) :
    (GenChildren root = optionMapM renderFragment (preorderNodes root.Children)) ∧
    (Gen doc = (GenChildren root).map (strJoin "\n\n")) ∧
    (∀ (l1 l2 l3 : List YAMLNode) (a b : YAMLNode),
      root.Children = l1 ++ a :: (l2 ++ b :: l3) →
      preorderNodes root.Children =
        preorderNodes l1 ++ a :: (preorderNodes a.Children ++
          (preorderNodes l2 ++ b :: (preorderNodes b.Children ++ preorderNodes l3)))) := by
  refine ⟨genFragments_eq_preorder root.Children, ?_, ?_⟩
  · simp [Gen, h]
  · intro l1 l2 l3 a b hch
    rw [hch, preorderNodes_append]
    cases a with
    | mk i1 p1 w1 k1 d1 de1 t1 cs1 =>
      cases b with
      | mk i2 p2 w2 k2 d2 de2 t2 cs2 =>
        simp [preorderNodes, preorderNodes_append, List.append_assoc, YAMLNode.Children]

/-- Claim C8, witness: the theorem applied to the two-entry document
`a: 1`, `b: 2` and its parsed root. -/
theorem C8_witness :
    GenChildren twoEntryRoot = optionMapM renderFragment (preorderNodes twoEntryRoot.Children) ∧
    Gen twoEntryDoc = (GenChildren twoEntryRoot).map (strJoin "\n\n") :=
  ⟨(C8_render_order twoEntryDoc twoEntryRoot
      (by simp [Parse, ParseNode, ParseChildren, parseLoop, twoEntryDoc, twoEntryRoot,
        keyA, keyB, valOne, valTwo, scalarPairNode, YNode.kind, YNode.content,
        YNode.column, YNode.value, YNode.tag, YNode.headComment])).1,
   (C8_render_order twoEntryDoc twoEntryRoot
      (by simp [Parse, ParseNode, ParseChildren, parseLoop, twoEntryDoc, twoEntryRoot,
        keyA, keyB, valOne, valTwo, scalarPairNode, YNode.kind, YNode.content,
        YNode.column, YNode.value, YNode.tag, YNode.headComment])).2.1⟩

/-- Claim C10, counterexample.  The claim says `Gen` aborts with a runtime
panic on an empty document (no top-level value).  It does not: an empty
input leaves the unmarshalled node zero-valued (`zeroInputNode`),
`ParseNode`'s `switch` matches no case and returns the zero `YAMLNode`,
and `Gen` returns the empty markdown string with no error — `some ""`,
not the `none` that models a panic. -/
theorem C10_counterexample :
    Gen zeroInputNode = some "" ∧ (some "" : Option String) ≠ none := by
  constructor
  · simp [Gen, Parse, ParseNode, GenChildren, genFragments, zeroInputNode, strJoin,
      YNode.kind, YNode.content, YAMLNode.Children]
  · simp

/-- Claim C10, amended: `Gen` is not total over well-formed YAML input, but
only the scalar scenario aborts — on a document whose top-level value is a
scalar, the parse phase hits the runtime panic `panic("scalars should not
be parsed here")`, modelled by `none`, producing neither a markdown string
nor a declared error value; an empty input, by contrast, leaves the
unmarshalled node zero-valued, `ParseNode` falls through its `switch` to
the zero `YAMLNode`, and `Gen` returns the empty markdown string with no
error. -/
theorem C10_gen_not_total :
    ParseNode scalarDoc "" = none ∧ Gen scalarDoc = none ∧
    ParseNode zeroInputNode "" = some (YAMLNode.mk 0 "" false "" "" "" "" []) ∧
    Gen zeroInputNode = some "" := by
  refine ⟨?_, ?_, ?_, ?_⟩ <;>
    simp [Gen, Parse, ParseNode, GenChildren, genFragments, scalarDoc, bareScalar,
      zeroInputNode, strJoin, YNode.kind, YNode.content, YAMLNode.Children]
